import Mathlib

/-!
Verification development for the rag-server retrieval core.

This file gives a shallow embedding, in Lean 4, of the algorithmic heart of
the repository: the hybrid/fixed text chunker (`rag_server/chunking.py`), the
BM25 sparse encoder (`rag_server/sparse_encoder.py`), the deterministic
document-identity function and the indexing / context-building logic of the
query engine (`rag_server/query_engine.py`).  Python strings are modelled as
`List Char` (ASCII behaviour of `lower`, `strip`, `\s`, `\b`), Python `int`
as `Int`/`Nat`, Python `float` as `ℚ` with the one transcendental (`math.log`)
and the cryptographic primitives (MD5 64-bit slice, SHA-256 hex digest,
UUID5) taken as explicit function parameters, and fallible/stateful steps as
`Except`/`Option` values.  Each embedded definition mirrors one Python
function; theorems at the end of the file settle the specification claims.
-/

namespace RagSrv

/-! ## Python string primitives (ASCII model) -/

/-- Python whitespace (`str.strip`, regex `\s`): space, tab, newline,
carriage return, vertical tab, form feed. -/
def isPySpace (c : Char) : Bool :=
  c = ' ' || c = '\t' || c = '\n' || c = '\r' || c.toNat = 11 || c.toNat = 12

/-- Sentence-final punctuation of the chunker's regex `(?<=[.!?])\s+`. -/
def isSentEnd (c : Char) : Bool :=
  c = '.' || c = '!' || c = '?'

/-- Python `str.strip()`: drop leading and trailing whitespace. -/
def pyStrip (s : List Char) : List Char :=
  ((s.dropWhile isPySpace).reverse.dropWhile isPySpace).reverse

/-- Normalise a (possibly negative) Python index against a string of length
`l`, as Python's `str.find`/slicing do for the start bound. -/
def effStart (l : Nat) (st : Int) : Nat :=
  if st < 0 then (max ((l : Int) + st) 0).toNat else st.toNat

/-- Python slice `s[a:b]` (negative bounds count from the end, out-of-range
bounds are clamped). -/
def pySlice (s : List Char) (a b : Int) : List Char :=
  let l := s.length
  let a' := min (effStart l a) l
  let b' := min (effStart l b) l
  (s.take b').drop a'

/-- Candidate scan for `pyFind`: try positions `i, i+1, …` while the budget
`k` lasts; a position matches when `sub` occurs there inside `text`. -/
def findAux (text sub : List Char) : Nat → Nat → Int
  | _, 0 => -1
  | i, k + 1 =>
    if i + sub.length ≤ text.length then
      if (text.drop i).take sub.length = sub then (i : Int)
      else findAux text sub (i + 1) k
    else -1

/-- Python `text.find(sub, start)`: index of the first occurrence of `sub`
at or after `start` (negative `start` counts from the end), `-1` if none. -/
def pyFind (text sub : List Char) (st : Int) : Int :=
  let eff := effStart text.length st
  findAux text sub eff (text.length + 1 - eff)

/-- State machine for `re.split(r'(?<=[.!?])\s+', text)`: `inSep` says we are
inside a whitespace separator run, `prev` is the previous character (the
lookbehind), `acc` the current piece reversed. -/
def goSplit : Bool → Char → List Char → List Char → List (List Char)
  | _, _, acc, [] => [acc.reverse]
  | inSep, prev, acc, c :: rest =>
    if inSep && isPySpace c then
      goSplit true c acc rest
    else if !inSep && isPySpace c && isSentEnd prev then
      acc.reverse :: goSplit true c [] rest
    else
      goSplit false c (c :: acc) rest

/-- `self.sentence_pattern.split(text)` with pattern `(?<=[.!?])\s+`. -/
def splitSentences (text : List Char) : List (List Char) :=
  goSplit false 'x' [] text

/-- Python `" ".join(parts)`. -/
def joinSp (parts : List (List Char)) : List Char :=
  List.intercalate [' '] parts

/-! ## Chunker (`rag_server/chunking.py`, class `HybridChunker`) -/

/-- Constructor arguments of `HybridChunker.__init__`. -/
structure ChunkerCfg where
  chunk_size : Int
  chunk_overlap : Int
  min_chunk_size : Int
  use_sentence_splitting : Bool
deriving DecidableEq, Repr

/-- The defaults of `HybridChunker.__init__` (512, 50, 100, True). -/
def defaultChunkerCfg : ChunkerCfg := ⟨512, 50, 100, true⟩

/-- One element of the list returned by `chunk_with_positions`: the dict
`{"content": …, "start": …, "end": …}` (`stop` embeds the key `"end"`,
a Lean keyword).  Positions are `Int` because the Python code can produce
`-1` from a failed `str.find`. -/
structure ChunkPos where
  content : List Char
  start : Int
  stop : Int
deriving DecidableEq, Repr

instance : Inhabited ChunkPos := ⟨⟨[], 0, 0⟩⟩

/-- The overlap walk-back loop of `_hybrid_chunk_with_positions`
(lines 226–233): walk `current_chunk` back to front, keeping sentences while
their cumulative length stays within `chunk_overlap`; returns
`(overlap_sentences, overlap_length)`. -/
def ovLoop (ov : Int) : List (List Char) → Int → List (List Char) →
    List (List Char) × Int
  | [], olen, osent => (osent, olen)
  | s :: rest, olen, osent =>
    if olen + (s.length : Int) ≤ ov then
      ovLoop ov rest (olen + (s.length : Int)) (s :: osent)
    else (osent, olen)

/-- Loop state of `_hybrid_chunk_with_positions`: emitted chunks (in order),
`current_chunk`, `current_length`, `current_start`. -/
structure HybSt where
  chunks : List ChunkPos
  cur : List (List Char)
  curLen : Int
  curStart : Int
deriving Repr

/-- Lines 215–236 of `_hybrid_chunk_with_positions`: close the current
chunk (emit it when it reaches `min_chunk_size`, recovering offsets with
`str.find`) and seed the next buffer with the overlap suffix. -/
def emitChunk (cfg : ChunkerCfg) (text : List Char) (st : HybSt) : HybSt :=
  let chunk_text := joinSp st.cur
  let chunks' :=
    if (chunk_text.length : Int) ≥ cfg.min_chunk_size then
      let chunk_start := pyFind text (st.cur.headD []) (max 0 (st.curStart - cfg.chunk_size))
      let lastS := st.cur.getLastD []
      let chunk_end := pyFind text lastS chunk_start + (lastS.length : Int)
      st.chunks ++ [⟨chunk_text, chunk_start, chunk_end⟩]
    else st.chunks
  let (osent, olen) := ovLoop cfg.chunk_overlap st.cur.reverse 0 []
  { chunks := chunks', cur := osent, curLen := olen, curStart := st.curStart }

/-- The `for sentence in sentences` loop of `_hybrid_chunk_with_positions`
(lines 204–240). -/
def hybridGo (cfg : ChunkerCfg) (text : List Char) :
    List (List Char) → HybSt → HybSt
  | [], st => st
  | sRaw :: rest, st =>
    let s := pyStrip sRaw
    if s = [] then hybridGo cfg text rest st
    else
      let slen : Int := s.length
      let sentence_pos := pyFind text s st.curStart
      let st1 :=
        if st.curLen + slen > cfg.chunk_size ∧ st.cur ≠ [] then
          emitChunk cfg text st
        else st
      hybridGo cfg text rest
        { st1 with cur := st1.cur ++ [s], curLen := st1.curLen + slen,
                   curStart := sentence_pos + slen }

/-- `HybridChunker._hybrid_chunk_with_positions` (lines 185–253), including
the trailing-buffer flush and the whole-text fallback. -/
def hybrid_chunk_with_positions (cfg : ChunkerCfg) (text : List Char) :
    List ChunkPos :=
  let sentences := splitSentences text
  if sentences = [] then [⟨text, 0, text.length⟩]
  else
    let st := hybridGo cfg text sentences ⟨[], [], 0, 0⟩
    let chunks :=
      if st.cur ≠ [] then
        let chunk_text := joinSp st.cur
        if (chunk_text.length : Int) ≥ cfg.min_chunk_size then
          let chunk_start :=
            pyFind text (st.cur.headD []) (max 0 (st.curStart - cfg.chunk_size - st.curLen))
          let lastS := st.cur.getLastD []
          let chunk_end :=
            min (text.length : Int) (pyFind text lastS chunk_start + (lastS.length : Int))
          st.chunks ++ [⟨chunk_text, chunk_start, chunk_end⟩]
        else st.chunks
      else st.chunks
    if chunks = [] then [⟨text, 0, text.length⟩] else chunks

/-- One iteration of the `while start < len(text)` loop of
`_fixed_size_chunk_with_positions` (lines 105–121): `.inr` means the loop
finishes with the given chunks, `.inl` continues with the next state. -/
def fixedStep (cfg : ChunkerCfg) (text : List Char) (start : Int)
    (chunks : List ChunkPos) : (Int × List ChunkPos) ⊕ (List ChunkPos) :=
  if ¬ start < (text.length : Int) then .inr chunks
  else
    let e := min (start + cfg.chunk_size) (text.length : Int)
    let chunk := pyStrip (pySlice text start e)
    let chunks' :=
      if chunk ≠ [] then
        let actual_start := pyFind text chunk start
        chunks ++ [⟨chunk, actual_start, actual_start + (chunk.length : Int)⟩]
      else chunks
    let start' := e - cfg.chunk_overlap
    if start' ≥ (text.length : Int) ∨
        (chunks' ≠ [] ∧ start' ≤ (chunks'.getLastD default).start) then
      .inr chunks'
    else .inl (start', chunks')

/-- `HybridChunker._fixed_size_chunk_with_positions` as a fuel-indexed loop:
`none` means the fuel ran out before the Python loop reached a `break`,
so `(∀ fuel, … = none)` expresses non-termination of the source loop. -/
def fixedAux (cfg : ChunkerCfg) (text : List Char) :
    Nat → Int → List ChunkPos → Option (List ChunkPos)
  | 0, _, _ => none
  | fuel + 1, start, chunks =>
    match fixedStep cfg text start chunks with
    | .inr done => some done
    | .inl (s', c') => fixedAux cfg text fuel s' c'

/-- `HybridChunker.chunk_with_positions` (lines 51–67): empty/short-text
short-circuit, then dispatch on `use_sentence_splitting`.  The fixed-size
branch carries the loop fuel. -/
def chunk_with_positions (cfg : ChunkerCfg) (fuel : Nat) (text : List Char) :
    Option (List ChunkPos) :=
  if text = [] ∨ (text.length : Int) < cfg.min_chunk_size then
    some (if text ≠ [] then [⟨text, 0, (text.length : Int)⟩] else [])
  else if cfg.use_sentence_splitting then
    some (hybrid_chunk_with_positions cfg text)
  else
    fixedAux cfg text fuel 0 []

/-! ## BM25 sparse encoder (`rag_server/sparse_encoder.py`) -/

/-- A character matched by `[a-z0-9_]` (the token class of `tokenize` after
lower-casing; ASCII model of `\b[a-z0-9_]+\b`). -/
def isWordChar (c : Char) : Bool :=
  ('a' ≤ c && c ≤ 'z') || ('0' ≤ c && c ≤ '9') || c = '_'

/-- ASCII `str.lower()` on one character. -/
def pyLowerChar (c : Char) : Char :=
  if 'A' ≤ c && c ≤ 'Z' then Char.ofNat (c.toNat + 32) else c

/-- ASCII `str.lower()`. -/
def pyLower (s : List Char) : List Char := s.map pyLowerChar

/-- Maximal-run scanner behind `re.findall(r'\b[a-z0-9_]+\b', text)` on a
lower-cased ASCII string: collect maximal runs of `[a-z0-9_]` characters
(`acc` is the current run, reversed). -/
def goTok (acc : List Char) : List Char → List (List Char)
  | [] => if acc = [] then [] else [acc.reverse]
  | c :: rest =>
    if isWordChar c then goTok (c :: acc) rest
    else if acc = [] then goTok [] rest
    else acc.reverse :: goTok [] rest

/-- `re.findall(r'\b[a-z0-9_]+\b', text)` for lower-cased ASCII text. -/
def extractTokens (text : List Char) : List (List Char) := goTok [] text

/-- State of a `BM25SparseEncoder` (`__init__` fields plus the corpus
statistics `idf`, `avg_doc_length`, `doc_count`).  Floats are modelled as
`ℚ`; the `idf` dict as an association list. -/
structure BM25Enc where
  vocab_size : Nat
  k1 : ℚ
  b : ℚ
  min_token_length : Nat
  idf : List (List Char × ℚ)
  avg_doc_length : ℚ
  doc_count : Nat
deriving DecidableEq, Repr

/-- A freshly constructed `BM25SparseEncoder()` with all defaults
(`vocab_size=30000, k1=1.5, b=0.75, min_token_length=2`, empty idf table,
`avg_doc_length=100.0, doc_count=0`). -/
def defaultBM25 : BM25Enc := ⟨30000, 3/2, 3/4, 2, [], 100, 0⟩

/-- `BM25SparseEncoder.tokenize`: lower-case, extract word runs, drop tokens
shorter than `min_token_length`. -/
def tokenize (s : BM25Enc) (text : List Char) : List (List Char) :=
  (extractTokens (pyLower text)).filter (fun t => s.min_token_length ≤ t.length)

/-- `BM25SparseEncoder._hash_token`: MD5-based 64-bit hash modulo
`vocab_size`.  The 64-bit slice `int.from_bytes(md5(token)[:8], 'big')` is
the abstract parameter `md5slice`. -/
def hash_token (md5slice : List Char → Nat) (s : BM25Enc)
    (token : List Char) : Nat :=
  md5slice token % s.vocab_size

/-- `BM25SparseEncoder.get_idf`: stored idf when the token is known,
otherwise `log((doc_count + 1) / 1.5)` once a corpus has been fitted
(`doc_count > 0`), else `1.0`.  `math.log` is the abstract parameter
`logFn`. -/
def get_idf (logFn : ℚ → ℚ) (s : BM25Enc) (token : List Char) : ℚ :=
  match s.idf.lookup token with
  | some v => v
  | none => if 0 < s.doc_count then logFn (((s.doc_count : ℚ) + 1) / (3/2)) else 1

/-- The per-token BM25 weight computed in `encode` (lines 116–127):
`idf * (tf * (k1 + 1)) / (tf + k1 * (1 - b + b * (doc_length / avg_doc_length)))`,
with the grouping exactly as in the source. -/
def bm25TokenWeight (logFn : ℚ → ℚ) (s : BM25Enc) (token : List Char)
    (tf doc_length : Nat) : ℚ :=
  let idf := get_idf logFn s token
  let length_norm := 1 - s.b + s.b * ((doc_length : ℚ) / s.avg_doc_length)
  let tf_weight := ((tf : ℚ) * (s.k1 + 1)) / ((tf : ℚ) + s.k1 * length_norm)
  idf * tf_weight

/-- Key order of `Counter(tokens).items()`: the distinct tokens in order of
first occurrence. -/
def uniqTokens (seen : List (List Char)) : List (List Char) → List (List Char)
  | [] => []
  | t :: rest =>
    if t ∈ seen then uniqTokens seen rest
    else t :: uniqTokens (t :: seen) rest

/-- The dict update `indices_values[idx] += weight` / `= weight` of `encode`
(lines 133–136): add `w` to the entry with key `i`, appending a new entry
when the key is absent. -/
def insertAdd (i : Nat) (w : ℚ) : List (Nat × ℚ) → List (Nat × ℚ)
  | [] => [(i, w)]
  | (j, v) :: rest =>
    if j = i then (j, v + w) :: rest else (j, v) :: insertAdd i w rest

/-- Insertion step of the ascending stable sort modelling Python
`sorted(indices_values.items())` (keys are distinct, so only the key is
compared). -/
def insertSorted (p : Nat × ℚ) : List (Nat × ℚ) → List (Nat × ℚ)
  | [] => [p]
  | q :: rest => if p.1 ≤ q.1 then p :: q :: rest else q :: insertSorted p rest

/-- Ascending stable sort by key, modelling `sorted(indices_values.items())`
on an association list with distinct keys. -/
def sortByKey : List (Nat × ℚ) → List (Nat × ℚ)
  | [] => []
  | p :: rest => insertSorted p (sortByKey rest)

/-- The `for token, tf in tf_counts.items()` loop of `encode` (lines
114–136): build the `indices_values` dict by inserting each distinct token's
BM25 weight at its hashed index, summing on collision. -/
def encodeDict (md5slice : List Char → Nat) (logFn : ℚ → ℚ) (s : BM25Enc)
    (tokens : List (List Char)) : List (Nat × ℚ) :=
  (uniqTokens [] tokens).foldl
    (fun d token =>
      insertAdd (hash_token md5slice s token)
        (bm25TokenWeight logFn s token (tokens.count token) tokens.length) d)
    []

/-- `BM25SparseEncoder.encode` (lines 94–143): tokenize, short-circuit on no
tokens, accumulate per-token BM25 weights into the collision-summing dict,
sort by index, and return parallel `(indices, values)` lists. -/
def encode (md5slice : List Char → Nat) (logFn : ℚ → ℚ) (s : BM25Enc)
    (text : List Char) : List Nat × List ℚ :=
  let tokens := tokenize s text
  if tokens = [] then ([], [])
  else
    let sorted_items := sortByKey (encodeDict md5slice logFn s tokens)
    (sorted_items.map Prod.fst, sorted_items.map Prod.snd)

/-! ## Query engine (`rag_server/query_engine.py`) -/

/-- The fields of `DocumentMetadata` (`rag_server/models.py`) that the
query-engine logic reads; all are `Optional[str]` there (`ingested_at` is an
optional datetime, modelled as a string).  The remaining pydantic fields are
carried opaquely by the pipeline and are not modelled. -/
structure DocumentMetadata where
  library : Option String
  module : Option String
  symbol : Option String
  url : Option String
  ingested_at : Option String
deriving DecidableEq, Repr

/-- Python truthiness of an optional string (`None` and `""` are falsy). -/
def truthyS : Option String → Bool
  | none => false
  | some s => s ≠ ""

/-- `.lower().replace(" ", "_")` as applied to `metadata.library` and
`metadata.module` in `generate_doc_id`. -/
def lowerUnders (s : String) : String :=
  ⟨(s.data.map pyLowerChar).map (fun c => if c = ' ' then '_' else c)⟩

/-- Python `str.replace(pat, rep)` (non-overlapping, left to right), as a
fuel-indexed scan; the fuel `s.length` suffices because every step consumes
at least one character.  Only called with non-empty patterns. -/
def replAux (pat rep : List Char) : Nat → List Char → List Char
  | _, [] => []
  | 0, l => l
  | fuel + 1, c :: rest =>
    if (c :: rest).take pat.length = pat then
      rep ++ replAux pat rep fuel ((c :: rest).drop pat.length)
    else c :: replAux pat rep fuel rest

/-- Python `s.replace(pat, rep)` for non-empty `pat`. -/
def pyReplace (s pat rep : String) : String :=
  ⟨replAux pat.data rep.data s.data.length s.data⟩

/-- Python `url.rstrip("/")`. -/
def rstripSlash (s : String) : String :=
  ⟨(s.data.reverse.dropWhile (· = '/')).reverse⟩

/-- `generate_doc_id` (`query_engine.py` lines 25–65): structured
`library:module:symbol` key, else a URL-derived id from the trailing path
segments, else `doc:` plus the first 12 hex chars of the SHA-256 of
`url + content[:500]`.  The hex digest is the abstract parameter
`sha256hex`. -/
def generate_doc_id (sha256hex : String → String) (metadata : DocumentMetadata)
    (content : String) : String :=
  let parts : List String :=
    (if truthyS metadata.library then [lowerUnders (metadata.library.getD "")] else []) ++
    (if truthyS metadata.module then [lowerUnders (metadata.module.getD "")] else []) ++
    (if truthyS metadata.symbol then [metadata.symbol.getD ""] else [])
  if parts ≠ [] then String.intercalate ":" parts
  else
    let hashFallback :=
      "doc:" ++ (sha256hex ((if truthyS metadata.url then metadata.url.getD "" else "")
        ++ content.take 500)).take 12
    if truthyS metadata.url then
      let url_parts := (rstripSlash (metadata.url.getD "")).splitOn "/"
      let lastParts := url_parts.drop (url_parts.length - 3)
      let meaningful := lastParts.filter
        (fun p => p ≠ "" && p ≠ "index.html" && p ≠ "www")
      if meaningful ≠ [] then
        pyReplace (pyReplace (String.intercalate ":" meaningful) ".html" "") ".md" ""
      else hashFallback
    else hashFallback

/-- The base-metadata dict assembled per document in `index()` (lines
140–145): the document metadata plus the stamped `ingested_at` and the
assigned `source_doc_id`. -/
structure BaseMeta where
  meta : DocumentMetadata
  ingested_at : String
  source_doc_id : String
deriving DecidableEq, Repr

/-- The metadata dict attached to one chunk by `chunk_with_metadata`
(`chunking.py` lines 282–297): the base metadata merged with the
chunk-specific fields. -/
structure ChunkMeta where
  base : DocumentMetadata
  ingested_at : String
  source_doc_id : String
  chunk_index : Nat
  chunk_char_start : Int
  chunk_char_end : Int
  chunk_size : Nat
  chunk_overlap : Int
  chunk_strategy : String
  total_chunks : Nat
deriving DecidableEq, Repr

/-- One element of the list returned by `chunk_with_metadata`:
`{"content": …, "metadata": …}`. -/
structure ChunkWithMeta where
  content : List Char
  metadata : ChunkMeta
deriving DecidableEq, Repr

/-- `HybridChunker.chunk_with_metadata` (`chunking.py` lines 255–298):
chunk with positions, then attach the chunk-specific metadata fields by
enumeration order. -/
def chunk_with_metadata (cfg : ChunkerCfg) (fuel : Nat) (text : String)
    (base : BaseMeta) : Option (List ChunkWithMeta) :=
  (chunk_with_positions cfg fuel text.data).map fun chunks_with_pos =>
    let total_chunks := chunks_with_pos.length
    let strategy := if cfg.use_sentence_splitting then "sentence+char" else "fixed"
    chunks_with_pos.enum.map fun p =>
      { content := p.2.content,
        metadata :=
          { base := base.meta, ingested_at := base.ingested_at,
            source_doc_id := base.source_doc_id,
            chunk_index := p.1, chunk_char_start := p.2.start,
            chunk_char_end := p.2.stop, chunk_size := p.2.content.length,
            chunk_overlap := cfg.chunk_overlap, chunk_strategy := strategy,
            total_chunks := total_chunks } }

/-- A `Document` of the index request (`models.py`): optional id, content,
metadata. -/
structure Document where
  id : Option String
  content : String
  metadata : DocumentMetadata
deriving DecidableEq, Repr

/-- One record of `documents_to_insert` in `index()` (lines 169–174); the
dense embedding is external data and not modelled. -/
structure InsertRec where
  id : String
  content : List Char
  metadata : ChunkMeta
deriving DecidableEq, Repr

/-- Lines 134–145 of `index()`: assign the document id (`doc.id or
generate_doc_id(...)`), stamp `ingested_at` when absent, and attach
`source_doc_id`. -/
def docIdAndBase (sha256hex : String → String) (now : String) (doc : Document) :
    String × BaseMeta :=
  let doc_id :=
    if truthyS doc.id then doc.id.getD ""
    else generate_doc_id sha256hex doc.metadata doc.content
  let ingested :=
    match doc.metadata.ingested_at with
    | some t => t
    | none => now
  (doc_id, ⟨doc.metadata, ingested, doc_id⟩)

/-- Lines 160–174 of `index()`: derive the deterministic chunk id
`uuid5(NAMESPACE_DNS, f"{source_doc_id}:chunk:{chunk_index}")` and assemble
the storage record.  `str(uuid.uuid5(NAMESPACE_DNS, ·))` is the abstract
parameter `uuid5`. -/
def mkRecord (uuid5 : String → String) (ch : ChunkWithMeta) : InsertRec :=
  { id := uuid5 (ch.metadata.source_doc_id ++ ":chunk:"
      ++ toString ch.metadata.chunk_index),
    content := ch.content, metadata := ch.metadata }

/-- The per-document slice of `index()` for one document: document id and
base metadata, chunking with metadata, and the derived storage records
(`none` when the chunker's fixed-mode loop exceeds the fuel). -/
def indexDocAux (sha256hex uuid5 : String → String) (cfg : ChunkerCfg)
    (fuel : Nat) (now : String) (doc : Document) :
    Option (String × List InsertRec) :=
  let p := docIdAndBase sha256hex now doc
  (chunk_with_metadata cfg fuel doc.content p.2).map fun chunks =>
    (p.1, chunks.map (mkRecord uuid5))

/-- The response of `index()` (`IndexResponse` without the collection name):
`indexed_count` counts inserted chunk records, `document_ids` the processed
document ids. -/
structure IndexResponse where
  indexed_count : Nat
  document_ids : List String
deriving DecidableEq, Repr

/-- The `for doc in request.documents` loop of `index()` (lines 134–152),
with the chunking step abstracted as a fallible call `chunkMeta` (a raised
Python exception propagates out of the loop, aborting it): collect the
document ids and concatenate all chunks, failing fast on the first error. -/
def gatherChunks (chunkMeta : String → BaseMeta → Except String (List ChunkWithMeta))
    (sha256hex : String → String) (now : String) :
    List Document → Except String (List String × List ChunkWithMeta)
  | [] => .ok ([], [])
  | doc :: rest =>
    let p := docIdAndBase sha256hex now doc
    match chunkMeta doc.content p.2 with
    | .error e => .error e
    | .ok chunks =>
      match gatherChunks chunkMeta sha256hex now rest with
      | .error e => .error e
      | .ok q => .ok (p.1 :: q.1, chunks ++ q.2)

/-- `RAGQueryEngine.index` (lines 109–186) with its two fallible stages
abstracted (`chunkMeta` for per-document chunking, `embedBatchF` for the
batched embedding request); the vector-store insert is modelled as echoing
the record ids, as the store contract promises.  Any error propagates and
the whole call returns it: the source has no try/except. -/
def indexBatch (chunkMeta : String → BaseMeta → Except String (List ChunkWithMeta))
    (embedBatchF : List (List Char) → Except String (List (List ℚ)))
    (sha256hex uuid5 : String → String) (now : String)
    (docs : List Document) : Except String IndexResponse :=
  match gatherChunks chunkMeta sha256hex now docs with
  | .error e => .error e
  | .ok p =>
    match embedBatchF (p.2.map ChunkWithMeta.content) with
    | .error e => .error e
    | .ok embeddings =>
      let documents_to_insert := (p.2.zip embeddings).map fun q => mkRecord uuid5 q.1
      let inserted_ids := documents_to_insert.map InsertRec.id
      .ok { indexed_count := inserted_ids.length, document_ids := p.1 }

/-- A `SearchResult` as consumed by `_build_context`: content plus a
string-keyed metadata dict (association list; only string values are
relevant to `_build_context`). -/
structure SearchResult where
  id : String
  content : String
  metadata : List (String × String)
deriving DecidableEq, Repr

/-- `RAGQueryEngine._build_context` (lines 291–316): fixed message on an
empty result list, else the results numbered from 1, each with an optional
`(Source: …)` tag from a truthy metadata dict's `source` entry, joined by
blank lines. -/
def build_context (results : List SearchResult) : String :=
  if results = [] then "No relevant context found."
  else
    String.intercalate "\n\n" (results.enum.map fun p =>
      let source_info :=
        if p.2.metadata ≠ [] then
          let source := (p.2.metadata.lookup "source").getD ""
          if source ≠ "" then " (Source: " ++ source ++ ")" else ""
        else ""
      "[" ++ toString (p.1 + 1) ++ "]" ++ source_info ++ " " ++ p.2.content)

/-! ## Specification-side definitions

These follow the wording of the specification (not the source) and exist
only to be compared with the embedded source definitions in refinement
claims. -/

/-- The structured document key as the spec words it: `library`/`module`
lower-cased with spaces replaced by underscores, `symbol` case-sensitive,
present fields colon-joined. -/
def specStructuredKey (metadata : DocumentMetadata) : String :=
  String.intercalate ":"
    ((if truthyS metadata.library then [lowerUnders (metadata.library.getD "")] else []) ++
     (if truthyS metadata.module then [lowerUnders (metadata.module.getD "")] else []) ++
     (if truthyS metadata.symbol then [metadata.symbol.getD ""] else []))

/-- The Okapi BM25 per-token weight as the spec words it:
`idf(token) * (tf * (k1 + 1)) / (tf + k1 * (1 - b + b * doc_length / avg_doc_length))`. -/
def specBM25Weight (idf k1 b : ℚ) (tf doc_length : Nat) (avg_doc_length : ℚ) : ℚ :=
  idf * ((tf : ℚ) * (k1 + 1)) /
    ((tf : ℚ) + k1 * (1 - b + b * (doc_length : ℚ) / avg_doc_length))

/-- One context entry as the claim words it: `"[i]{ (Source: <source>)}?
<content>"`, the source tag present exactly when the metadata has a
non-empty `source` field. -/
def specContextEntry (rank : Nat) (r : SearchResult) : String :=
  "[" ++ toString rank ++ "]" ++
    (if ((r.metadata.lookup "source").getD "") ≠ "" then
      " (Source: " ++ ((r.metadata.lookup "source").getD "") ++ ")"
    else "") ++ " " ++ r.content

/-- The non-empty-results context string as the claim words it: the entries
in rank order, 1-based, joined by blank lines. -/
def specContext (results : List SearchResult) : String :=
  String.intercalate "\n\n" (results.enum.map fun p => specContextEntry (p.1 + 1) p.2)

/-! ## Supporting lemmas -/

set_option maxRecDepth 4000

/-- Every token listed by the `Counter` key order occurs in the token
list. -/
theorem mem_of_mem_uniqTokens {t : List Char} :
    ∀ {seen l : List (List Char)}, t ∈ uniqTokens seen l → t ∈ l := by
  intro seen l
  induction l generalizing seen with
  | nil => simp [uniqTokens]
  | cons x rest ih =>
    intro h
    rw [uniqTokens] at h
    by_cases hx : x ∈ seen
    · simp only [if_pos hx] at h
      exact List.mem_cons_of_mem _ (ih h)
    · simp only [if_neg hx] at h
      rcases List.mem_cons.mp h with h | h
      · exact h ▸ List.mem_cons_self _ _
      · exact List.mem_cons_of_mem _ (ih h)

/-- A successful association-list lookup returns a stored value, so it
inherits positivity of the stored values. -/
theorem lookup_pos {l : List (List Char × ℚ)} {a : List Char} {v : ℚ}
    (hl : ∀ p ∈ l, 0 < p.2) (h : l.lookup a = some v) : 0 < v := by
  induction l with
  | nil => simp [List.lookup] at h
  | cons q rest ih =>
    rw [List.lookup] at h
    by_cases ha : a = q.1
    · have hb : (a == q.1) = true := beq_iff_eq.mpr ha
      rw [hb] at h
      simp at h
      exact h ▸ hl q (List.mem_cons_self _ _)
    · have hb : (a == q.1) = false := beq_eq_false_iff_ne.mpr ha
      rw [hb] at h
      exact ih (fun p hp => hl p (List.mem_cons_of_mem _ hp)) h

/-- `get_idf` is positive whenever the stored idf values are positive and
`logFn` is positive on arguments greater than one (as `math.log` is). -/
theorem get_idf_pos (logFn : ℚ → ℚ) (s : BM25Enc) (token : List Char)
    (hidf : ∀ p ∈ s.idf, 0 < p.2) (hlog : ∀ q : ℚ, 1 < q → 0 < logFn q) :
    0 < get_idf logFn s token := by
  rw [get_idf]
  cases h : s.idf.lookup token with
  | some v => exact lookup_pos hidf h
  | none =>
    by_cases hdc : 0 < s.doc_count
    · simp only [if_pos hdc]
      apply hlog
      rw [lt_div_iff₀ (by norm_num)]
      have h1 : (1 : ℚ) ≤ (s.doc_count : ℚ) := by exact_mod_cast hdc
      linarith
    · simp [hdc]

/-- The per-token BM25 weight is positive for a positive term frequency and
document length under the validity conditions of the encoder state. -/
theorem bm25TokenWeight_pos (logFn : ℚ → ℚ) (s : BM25Enc) (token : List Char)
    {tf doc_length : Nat} (htf : 0 < tf) (hdl : 0 < doc_length)
    (hk1 : 0 ≤ s.k1) (hb0 : 0 ≤ s.b) (hb1 : s.b ≤ 1) (havg : 0 < s.avg_doc_length)
    (hidf : ∀ p ∈ s.idf, 0 < p.2) (hlog : ∀ q : ℚ, 1 < q → 0 < logFn q) :
    0 < bm25TokenWeight logFn s token tf doc_length := by
  rw [bm25TokenWeight]
  have htfq : (0 : ℚ) < (tf : ℚ) := by exact_mod_cast htf
  have hdlq : (0 : ℚ) < (doc_length : ℚ) := by exact_mod_cast hdl
  have hx : 0 < (doc_length : ℚ) / s.avg_doc_length := div_pos hdlq havg
  have hln : 0 < 1 - s.b + s.b * ((doc_length : ℚ) / s.avg_doc_length) := by
    rcases lt_or_eq_of_le hb1 with h | h
    · have h2 : 0 ≤ s.b * ((doc_length : ℚ) / s.avg_doc_length) := mul_nonneg hb0 hx.le
      linarith
    · rw [h]
      linarith
  have hden : 0 < (tf : ℚ) + s.k1 * (1 - s.b + s.b * ((doc_length : ℚ) / s.avg_doc_length)) := by
    have h2 : 0 ≤ s.k1 * (1 - s.b + s.b * ((doc_length : ℚ) / s.avg_doc_length)) :=
      mul_nonneg hk1 hln.le
    linarith
  have hnum : 0 < (tf : ℚ) * (s.k1 + 1) := mul_pos htfq (by linarith)
  exact mul_pos (get_idf_pos logFn s token hidf hlog) (div_pos hnum hden)

/-- Key membership after a summing dict insertion. -/
theorem mem_keys_insertAdd {a i : Nat} {w : ℚ} {l : List (Nat × ℚ)} :
    a ∈ (insertAdd i w l).map Prod.fst ↔ a = i ∨ a ∈ l.map Prod.fst := by
  induction l with
  | nil => simp [insertAdd, eq_comm]
  | cons q rest ih =>
    rw [insertAdd]
    by_cases hq : q.1 = i
    · simp only [if_pos hq]
      simp [hq, eq_comm]
    · simp only [if_neg hq]
      simp only [List.map_cons, List.mem_cons, ih]
      tauto

/-- A summing dict insertion keeps the keys duplicate-free. -/
theorem nodup_keys_insertAdd {i : Nat} {w : ℚ} {l : List (Nat × ℚ)}
    (h : (l.map Prod.fst).Nodup) : ((insertAdd i w l).map Prod.fst).Nodup := by
  induction l with
  | nil => simp [insertAdd]
  | cons q rest ih =>
    rw [insertAdd]
    simp only [List.map_cons, List.nodup_cons] at h
    by_cases hq : q.1 = i
    · simp only [if_pos hq, List.map_cons, List.nodup_cons]
      exact h
    · simp only [if_neg hq, List.map_cons, List.nodup_cons]
      refine ⟨fun hmem => ?_, ih h.2⟩
      rcases mem_keys_insertAdd.mp hmem with h1 | h1
      · exact hq h1
      · exact h.1 h1

/-- A summing dict insertion of a positive weight keeps all stored values
positive (a sum of positives is positive). -/
theorem pos_values_insertAdd {i : Nat} {w : ℚ} {l : List (Nat × ℚ)}
    (hw : 0 < w) (hl : ∀ p ∈ l, 0 < p.2) : ∀ p ∈ insertAdd i w l, 0 < p.2 := by
  induction l with
  | nil =>
    intro p hp
    simp [insertAdd] at hp
    simp [hp, hw]
  | cons q rest ih =>
    intro p hp
    rw [insertAdd] at hp
    by_cases hq : q.1 = i
    · simp only [if_pos hq, List.mem_cons] at hp
      rcases hp with hp | hp
      · have hqpos := hl q (List.mem_cons_self _ _)
        subst hp
        simp only
        positivity
      · exact hl p (List.mem_cons_of_mem _ hp)
    · simp only [if_neg hq, List.mem_cons] at hp
      rcases hp with hp | hp
      · exact hp ▸ hl q (List.mem_cons_self _ _)
      · exact ih (fun r hr => hl r (List.mem_cons_of_mem _ hr)) p hp

/-- Sorted insertion permutes consing. -/
theorem insertSorted_perm (p : Nat × ℚ) (l : List (Nat × ℚ)) :
    (insertSorted p l).Perm (p :: l) := by
  induction l with
  | nil => rfl
  | cons q rest ih =>
    rw [insertSorted]
    by_cases h : p.1 ≤ q.1
    · simp [h]
    · simp only [if_neg h]
      exact (List.Perm.cons q ih).trans (List.Perm.swap p q rest)

/-- The key sort is a permutation, as Python `sorted` is. -/
theorem sortByKey_perm (l : List (Nat × ℚ)) : (sortByKey l).Perm l := by
  induction l with
  | nil => rfl
  | cons p rest ih =>
    rw [sortByKey]
    exact (insertSorted_perm p (sortByKey rest)).trans (List.Perm.cons p ih)

/-- Sorted insertion preserves ascending key order. -/
theorem insertSorted_sorted (p : Nat × ℚ) {l : List (Nat × ℚ)}
    (h : l.Pairwise (fun a b => a.1 ≤ b.1)) :
    (insertSorted p l).Pairwise (fun a b => a.1 ≤ b.1) := by
  induction l with
  | nil => simp [insertSorted]
  | cons q rest ih =>
    rw [insertSorted]
    rw [List.pairwise_cons] at h
    by_cases hpq : p.1 ≤ q.1
    · simp only [if_pos hpq]
      rw [List.pairwise_cons]
      refine ⟨fun b hb => ?_, List.pairwise_cons.mpr h⟩
      rcases List.mem_cons.mp hb with hb | hb
      · exact hb ▸ hpq
      · exact le_trans hpq (h.1 b hb)
    · simp only [if_neg hpq]
      rw [List.pairwise_cons]
      refine ⟨fun b hb => ?_, ih h.2⟩
      have hb' := (insertSorted_perm p rest).mem_iff.mp hb
      rcases List.mem_cons.mp hb' with hb' | hb'
      · exact hb' ▸ le_of_not_le hpq
      · exact h.1 b hb'

/-- The key sort produces ascending key order. -/
theorem sortByKey_sorted (l : List (Nat × ℚ)) :
    (sortByKey l).Pairwise (fun a b => a.1 ≤ b.1) := by
  induction l with
  | nil => simp [sortByKey]
  | cons p rest ih => exact insertSorted_sorted p ih

/-- The `indices_values` dict built by `encode` has positive values and
duplicate-free keys under the encoder-state validity conditions. -/
theorem encodeDict_inv (md5slice : List Char → Nat) (logFn : ℚ → ℚ) (s : BM25Enc)
    (tokens : List (List Char))
    (hk1 : 0 ≤ s.k1) (hb0 : 0 ≤ s.b) (hb1 : s.b ≤ 1) (havg : 0 < s.avg_doc_length)
    (hidf : ∀ p ∈ s.idf, 0 < p.2) (hlog : ∀ q : ℚ, 1 < q → 0 < logFn q) :
    (∀ p ∈ encodeDict md5slice logFn s tokens, 0 < p.2)
    ∧ ((encodeDict md5slice logFn s tokens).map Prod.fst).Nodup := by
  rw [encodeDict]
  have hgen : ∀ ts : List (List Char), (∀ t ∈ ts, t ∈ tokens) →
      ∀ d : List (Nat × ℚ), (∀ p ∈ d, 0 < p.2) → ((d.map Prod.fst).Nodup) →
      (∀ p ∈ ts.foldl (fun d token =>
          insertAdd (hash_token md5slice s token)
            (bm25TokenWeight logFn s token (tokens.count token) tokens.length) d) d, 0 < p.2)
      ∧ ((ts.foldl (fun d token =>
          insertAdd (hash_token md5slice s token)
            (bm25TokenWeight logFn s token (tokens.count token) tokens.length) d) d).map
          Prod.fst).Nodup := by
    intro ts
    induction ts with
    | nil => exact fun _ d hd hnd => ⟨hd, hnd⟩
    | cons t rest ih =>
      intro hsub d hd hnd
      rw [List.foldl_cons]
      have htmem : t ∈ tokens := hsub t (List.mem_cons_self _ _)
      have hw : 0 < bm25TokenWeight logFn s t (tokens.count t) tokens.length :=
        bm25TokenWeight_pos logFn s t (List.count_pos_iff.mpr htmem)
          (List.length_pos.mpr (List.ne_nil_of_mem htmem)) hk1 hb0 hb1 havg hidf hlog
      exact ih (fun x hx => hsub x (List.mem_cons_of_mem _ hx)) _
        (pos_values_insertAdd hw hd) (nodup_keys_insertAdd hnd)
  exact hgen (uniqTokens [] tokens) (fun t ht => mem_of_mem_uniqTokens ht) [] (by simp) (by simp)

/-! ## Claim theorems -/

/-- C1: the claim states that for every non-empty input with
`len(text) ≥ min_chunk_size` in sentence mode, every chunk satisfies
`0 ≤ start ≤ end ≤ len(text)` with non-decreasing starts.  The code violates
it: on `"aaaaaa. bb."` with `chunk_size=4, chunk_overlap=0, min_chunk_size=1`
the first sentence is longer than `chunk_size`, so the offset-recovery
`text.find(...)` searches past its only occurrence, returns `-1`, and the
emitted chunk has `start = -1 < 0` (the same happens at the default
configuration with a sentence longer than 512 characters). -/
theorem C1_hybrid_chunk_negative_start :
    chunk_with_positions ⟨4, 0, 1, true⟩ 0 "aaaaaa. bb.".data =
      some [⟨"aaaaaa.".data, -1, 6⟩, ⟨"bb.".data, 8, 11⟩] := by decide

/-- C2: indexing a document without an explicit id is deterministic up to
the ingestion timestamp: two `index()` runs (differing only in the stamped
`now`) produce the same `source_doc_id` (namely `generate_doc_id`) and the
same list of chunk-record ids, each id being
`uuid5(namespace, "{source_doc_id}:chunk:{chunk_index}")` at its 0-based
emission position — so re-indexing addresses the same storage records. -/
theorem C2_index_deterministic_ids (sha256hex uuid5 : String → String)
    (cfg : ChunkerCfg) (fuel : Nat) (now₁ now₂ : String) (doc : Document)
    (hid : truthyS doc.id = false) :
    (indexDocAux sha256hex uuid5 cfg fuel now₁ doc).map Prod.fst
      = (indexDocAux sha256hex uuid5 cfg fuel now₂ doc).map Prod.fst
    ∧ (indexDocAux sha256hex uuid5 cfg fuel now₁ doc).map (fun r => r.2.map InsertRec.id)
      = (indexDocAux sha256hex uuid5 cfg fuel now₂ doc).map (fun r => r.2.map InsertRec.id)
    ∧ ∀ d recs, indexDocAux sha256hex uuid5 cfg fuel now₁ doc = some (d, recs) →
        d = generate_doc_id sha256hex doc.metadata doc.content
        ∧ ∀ i, (h : i < recs.length) →
            (recs.get ⟨i, h⟩).id = uuid5 (d ++ ":chunk:" ++ toString i) := by
  cases hc : chunk_with_positions cfg fuel doc.content.data with
  | none =>
    have h1 : ∀ nw, indexDocAux sha256hex uuid5 cfg fuel nw doc = none := by
      intro nw
      simp [indexDocAux, chunk_with_metadata, hc]
    refine ⟨by rw [h1, h1], by rw [h1, h1], ?_⟩
    intro d recs h
    rw [h1] at h
    cases h
  | some cps =>
    have h2 : ∀ nw, indexDocAux sha256hex uuid5 cfg fuel nw doc =
        some (generate_doc_id sha256hex doc.metadata doc.content,
          cps.enum.map (fun p => mkRecord uuid5
            { content := p.2.content,
              metadata :=
                { base := doc.metadata,
                  ingested_at := match doc.metadata.ingested_at with
                    | some t => t
                    | none => nw,
                  source_doc_id := generate_doc_id sha256hex doc.metadata doc.content,
                  chunk_index := p.1, chunk_char_start := p.2.start,
                  chunk_char_end := p.2.stop, chunk_size := p.2.content.length,
                  chunk_overlap := cfg.chunk_overlap,
                  chunk_strategy := if cfg.use_sentence_splitting then "sentence+char" else "fixed",
                  total_chunks := cps.length } })) := by
      intro nw
      simp [indexDocAux, docIdAndBase, chunk_with_metadata, hc, hid, List.map_map]
    refine ⟨?_, ?_, ?_⟩
    · rw [h2, h2]
      simp
    · rw [h2, h2]
      simp [mkRecord]
    · intro d recs h
      rw [h2] at h
      rw [Option.some_inj] at h
      injection h with hd hrecs
      subst hd
      subst hrecs
      refine ⟨rfl, ?_⟩
      intro i hilt
      simp [List.get_eq_getElem, List.getElem_map, List.getElem_enum, mkRecord]

/-- Witness for C2 at a concrete short document, two different timestamps,
and concrete hash/uuid functions. -/
theorem C2_index_deterministic_ids_witness :
    (indexDocAux (fun _ => "sha") (fun s => "u:" ++ s) defaultChunkerCfg 0 "t1"
        ⟨none, "hi", ⟨none, none, none, none, none⟩⟩).map Prod.fst
      = (indexDocAux (fun _ => "sha") (fun s => "u:" ++ s) defaultChunkerCfg 0 "t2"
        ⟨none, "hi", ⟨none, none, none, none, none⟩⟩).map Prod.fst
    ∧ (indexDocAux (fun _ => "sha") (fun s => "u:" ++ s) defaultChunkerCfg 0 "t1"
        ⟨none, "hi", ⟨none, none, none, none, none⟩⟩).map (fun r => r.2.map InsertRec.id)
      = (indexDocAux (fun _ => "sha") (fun s => "u:" ++ s) defaultChunkerCfg 0 "t2"
        ⟨none, "hi", ⟨none, none, none, none, none⟩⟩).map (fun r => r.2.map InsertRec.id)
    ∧ ∀ d recs, indexDocAux (fun _ => "sha") (fun s => "u:" ++ s) defaultChunkerCfg 0 "t1"
        ⟨none, "hi", ⟨none, none, none, none, none⟩⟩ = some (d, recs) →
        d = generate_doc_id (fun _ => "sha") ⟨none, none, none, none, none⟩ "hi"
        ∧ ∀ i, (h : i < recs.length) →
            (recs.get ⟨i, h⟩).id = (fun s => "u:" ++ s) (d ++ ":chunk:" ++ toString i) :=
  C2_index_deterministic_ids (fun _ => "sha") (fun s => "u:" ++ s) defaultChunkerCfg 0
    "t1" "t2" ⟨none, "hi", ⟨none, none, none, none, none⟩⟩ rfl

/-- C3: `chunk_with_positions` returns the empty sequence on the empty
string, and on any non-empty text shorter than `min_chunk_size` it returns
exactly one chunk spanning the whole text with `start = 0` and
`end = len(text)`. -/
theorem C3_empty_and_short_text (cfg : ChunkerCfg) (fuel : Nat) (text : List Char)
    (h1 : text ≠ []) (h2 : (text.length : Int) < cfg.min_chunk_size) :
    chunk_with_positions cfg fuel [] = some [] ∧
    chunk_with_positions cfg fuel text = some [⟨text, 0, (text.length : Int)⟩] := by
  constructor
  · simp [chunk_with_positions]
  · simp [chunk_with_positions, h1, h2]

/-- Witness for C3 at the default configuration and the two-character text
`"hi"`. -/
theorem C3_empty_and_short_text_witness :
    chunk_with_positions defaultChunkerCfg 0 [] = some []
    ∧ chunk_with_positions defaultChunkerCfg 0 "hi".data = some [⟨"hi".data, 0, 2⟩] := by
  have h := C3_empty_and_short_text defaultChunkerCfg 0 "hi".data (by decide) (by decide)
  exact ⟨h.1, h.2.trans (by decide)⟩

/-- C4: the claim states fixed-mode chunking terminates for every input and
configuration.  The code violates it: on 200 spaces with the default numeric
configuration (`chunk_size=512, chunk_overlap=50, min_chunk_size=100`) and
`use_sentence_splitting=False`, every window strips to empty so nothing is
ever emitted, the emitted-start guard never fires, and the loop state is
stuck at `start = 150` forever — no amount of fuel makes the loop finish. -/
theorem C4_fixed_chunking_diverges :
    ∀ fuel, chunk_with_positions ⟨512, 50, 100, false⟩ fuel (List.replicate 200 ' ') = none := by
  have hstuck : ∀ n, fixedAux ⟨512, 50, 100, false⟩ (List.replicate 200 ' ') n 150 [] = none := by
    intro n
    induction n with
    | zero => rfl
    | succ k ih =>
      have hstep : fixedStep ⟨512, 50, 100, false⟩ (List.replicate 200 ' ') 150 []
          = .inl (150, []) := by decide
      simp only [fixedAux, hstep]
      exact ih
  intro fuel
  have hdisp : chunk_with_positions ⟨512, 50, 100, false⟩ fuel (List.replicate 200 ' ')
      = fixedAux ⟨512, 50, 100, false⟩ (List.replicate 200 ' ') fuel 0 [] := by
    simp only [chunk_with_positions]
    rw [if_neg (by decide), if_neg (by decide)]
  rw [hdisp]
  cases fuel with
  | zero => rfl
  | succ k =>
    have hstep0 : fixedStep ⟨512, 50, 100, false⟩ (List.replicate 200 ' ') 0 []
        = .inl (150, []) := by decide
    simp only [fixedAux, hstep0]
    exact hstuck k

/-- C5: for every text and every valid encoder state (non-negative `k1`,
`0 ≤ b ≤ 1`, positive average document length, positive stored idf values,
`math.log` positive above one — all satisfied by the defaults and by
corpus-fitted states), `encode` returns strictly increasing duplicate-free
indices, parallel lists of equal length, and strictly positive values. -/
theorem C5_encode_sparse_invariants (md5slice : List Char → Nat) (logFn : ℚ → ℚ)
    (s : BM25Enc) (text : List Char)
    (hk1 : 0 ≤ s.k1) (hb0 : 0 ≤ s.b) (hb1 : s.b ≤ 1) (havg : 0 < s.avg_doc_length)
    (hidf : ∀ p ∈ s.idf, 0 < p.2) (hlog : ∀ q : ℚ, 1 < q → 0 < logFn q) :
    ((encode md5slice logFn s text).1.Pairwise (· < ·))
    ∧ (encode md5slice logFn s text).1.length = (encode md5slice logFn s text).2.length
    ∧ (∀ v ∈ (encode md5slice logFn s text).2, 0 < v) := by
  by_cases htok : tokenize s text = []
  · simp [encode, htok]
  · obtain ⟨hpos, hnodup⟩ := encodeDict_inv md5slice logFn s (tokenize s text)
      hk1 hb0 hb1 havg hidf hlog
    have hperm := sortByKey_perm (encodeDict md5slice logFn s (tokenize s text))
    have hsorted := sortByKey_sorted (encodeDict md5slice logFn s (tokenize s text))
    simp only [encode, if_neg htok]
    refine ⟨?_, by simp, ?_⟩
    · rw [List.pairwise_map]
      have hnd2 : ((sortByKey (encodeDict md5slice logFn s (tokenize s text))).map
          Prod.fst).Nodup := ((hperm.map Prod.fst).nodup_iff).mpr hnodup
      have hne : (sortByKey (encodeDict md5slice logFn s (tokenize s text))).Pairwise
          (fun a b => a.1 ≠ b.1) := by
        rw [List.Nodup] at hnd2
        exact List.pairwise_map.mp hnd2
      exact hsorted.imp₂ (fun a b h1 h2 => lt_of_le_of_ne h1 h2) hne
    · intro v hv
      rw [List.mem_map] at hv
      obtain ⟨p, hp, hpv⟩ := hv
      exact hpv ▸ hpos p (hperm.subset hp)

/-- Witness for C5 at the default encoder state and a concrete text and
hash. -/
theorem C5_encode_sparse_invariants_witness :
    ((encode (fun t => t.length) (fun _ => 1) defaultBM25 "hello world hello".data).1.Pairwise (· < ·))
    ∧ (encode (fun t => t.length) (fun _ => 1) defaultBM25 "hello world hello".data).1.length
      = (encode (fun t => t.length) (fun _ => 1) defaultBM25 "hello world hello".data).2.length
    ∧ (∀ v ∈ (encode (fun t => t.length) (fun _ => 1) defaultBM25 "hello world hello".data).2, 0 < v) :=
  C5_encode_sparse_invariants (fun t => t.length) (fun _ => 1) defaultBM25
    "hello world hello".data (by norm_num [defaultBM25]) (by norm_num [defaultBM25])
    (by norm_num [defaultBM25]) (by norm_num [defaultBM25])
    (by simp [defaultBM25]) (fun _ _ => one_pos)

/-- C6: the weight a token contributes in `encode` before collision
aggregation is exactly the Okapi BM25 kernel of the spec with the default
parameters `k1 = 1.5`, `b = 0.75`, and `get_idf` of a token absent from the
fitted corpus is `log((N+1)/1.5)` when `doc_count > 0` and `1.0`
otherwise. -/
theorem C6_bm25_token_weight (logFn : ℚ → ℚ) (s : BM25Enc)
    (hk1 : s.k1 = 3/2) (hb : s.b = 3/4) (token : List Char) (tf doc_length : Nat) :
    bm25TokenWeight logFn s token tf doc_length
      = specBM25Weight (get_idf logFn s token) (3/2) (3/4) tf doc_length s.avg_doc_length
    ∧ (s.idf.lookup token = none →
        get_idf logFn s token
          = if 0 < s.doc_count then logFn (((s.doc_count : ℚ) + 1) / (3/2)) else 1) := by
  constructor
  · simp only [bm25TokenWeight, specBM25Weight, hk1, hb]
    ring
  · intro h
    simp [get_idf, h]

/-- Witness for C6 at the default encoder state. -/
theorem C6_bm25_token_weight_witness :
    bm25TokenWeight (fun q => q + 2) defaultBM25 "tok".data 1 1
      = specBM25Weight (get_idf (fun q => q + 2) defaultBM25 "tok".data) (3/2) (3/4) 1 1
          defaultBM25.avg_doc_length
    ∧ (defaultBM25.idf.lookup "tok".data = none →
        get_idf (fun q => q + 2) defaultBM25 "tok".data
          = if 0 < defaultBM25.doc_count
            then (fun q => q + 2) (((defaultBM25.doc_count : ℚ) + 1) / (3/2)) else 1) :=
  C6_bm25_token_weight (fun q => q + 2) defaultBM25 rfl rfl "tok".data 1 1

/-- C7: when at least one of `library`/`module`/`symbol` is set (truthy),
`generate_doc_id` returns the colon-joined structured key with `library` and
`module` lower-cased and spaces replaced by underscores and `symbol` left
case-sensitive. -/
theorem C7_structured_doc_id (sha256hex : String → String) (m : DocumentMetadata)
    (content : String)
    (h : truthyS m.library ∨ truthyS m.module ∨ truthyS m.symbol) :
    generate_doc_id sha256hex m content = specStructuredKey m := by
  have hp : ((if truthyS m.library then [lowerUnders (m.library.getD "")] else []) ++
      (if truthyS m.module then [lowerUnders (m.module.getD "")] else []) ++
      (if truthyS m.symbol then [m.symbol.getD ""] else [])) ≠ [] := by
    rcases h with h | h | h <;> simp [h]
  simp only [generate_doc_id, specStructuredKey]
  rw [if_pos hp]

/-- Witness for C7: the spec's scenario B — metadata
`{library:"Foo", module:"Bar", symbol:"baz"}` yields exactly
`"foo:bar:baz"`. -/
theorem C7_structured_doc_id_witness :
    generate_doc_id (fun _ => "") ⟨some "Foo", some "Bar", some "baz", none, none⟩ ""
      = "foo:bar:baz" :=
  (C7_structured_doc_id (fun _ => "") ⟨some "Foo", some "Bar", some "baz", none, none⟩ ""
    (Or.inl (by decide))).trans (by decide)

/-- C8 counterexample: the claim states a chunking error in one document of
a two-document batch still indexes the other document and yields
succeeded/failed counts.  At this concrete batch the embedded `index()`
returns the propagated error instead — no response, no counts, the second
document untouched. -/
theorem C8_batch_error_counterexample :
    indexBatch
      (fun content _ => if content = "BAD" then Except.error "chunk failure" else Except.ok [])
      (fun _ => Except.ok []) (fun _ => "sha") (fun s => s) "now"
      [⟨none, "BAD", ⟨none, none, none, none, none⟩⟩,
       ⟨none, "good", ⟨none, none, none, none, none⟩⟩]
      = Except.error "chunk failure" := rfl

/-- C8 (amended): a chunking/encoding error raised while processing any
document of the batch propagates out of `index()` unchanged, aborting the
whole call — there is no per-document containment and no succeeded/failed
counting. -/
theorem C8_error_aborts_batch
    (chunkMeta : String → BaseMeta → Except String (List ChunkWithMeta))
    (embedBatchF : List (List Char) → Except String (List (List ℚ)))
    (sha256hex uuid5 : String → String) (now : String) (docs : List Document)
    (e : String) (h : gatherChunks chunkMeta sha256hex now docs = .error e) :
    indexBatch chunkMeta embedBatchF sha256hex uuid5 now docs = .error e := by
  simp only [indexBatch, h]

/-- Witness for the amended C8 at a concrete failing one-document batch. -/
theorem C8_error_aborts_batch_witness :
    indexBatch (fun _ _ => Except.error "boom") (fun _ => Except.ok [])
      (fun _ => "s") (fun s => s) "t" [⟨none, "doc", ⟨none, none, none, none, none⟩⟩]
      = Except.error "boom" :=
  C8_error_aborts_batch (fun _ _ => Except.error "boom") (fun _ => Except.ok [])
    (fun _ => "s") (fun s => s) "t" [⟨none, "doc", ⟨none, none, none, none, none⟩⟩] "boom" rfl

/-- C9: when no token survives tokenization (empty text, all punctuation,
or all tokens shorter than `min_token_length`), `encode` returns the empty
sparse vector `([], [])`. -/
theorem C9_no_tokens_empty_vector (md5slice : List Char → Nat) (logFn : ℚ → ℚ)
    (s : BM25Enc) (text : List Char) (h : tokenize s text = []) :
    encode md5slice logFn s text = ([], []) := by
  simp [encode, h]

/-- Witness for C9 on an all-punctuation text whose single word is shorter
than the default `min_token_length`. -/
theorem C9_no_tokens_empty_vector_witness :
    encode (fun t => t.length) (fun q => q) defaultBM25 "!!! a .".data = ([], []) :=
  C9_no_tokens_empty_vector (fun t => t.length) (fun q => q) defaultBM25
    "!!! a .".data (by decide)

/-- C10: `_build_context` returns exactly `"No relevant context found."`
for an empty result list, and for non-empty results the 1-based rank-ordered
entries `"[i]{ (Source: <source>)}? <content>"` joined by blank lines, the
source tag omitted when the metadata has no non-empty `source` field. -/
theorem C10_build_context_format (results : List SearchResult) (h : results ≠ []) :
    build_context [] = "No relevant context found."
    ∧ build_context results = specContext results := by
  constructor
  · simp [build_context]
  · rw [build_context, if_neg h, specContext]
    congr 1
    apply List.map_congr_left
    intro p _
    cases hm : p.2.metadata with
    | nil => simp [specContextEntry, hm]
    | cons q rest =>
      simp only [specContextEntry, hm]
      split <;> simp_all

/-- Witness for C10 on a two-result list, one with and one without a
source tag. -/
theorem C10_build_context_format_witness :
    build_context [] = "No relevant context found."
    ∧ build_context [⟨"i1", "contentA", [("source", "srcA")]⟩, ⟨"i2", "contentB", []⟩]
      = specContext [⟨"i1", "contentA", [("source", "srcA")]⟩, ⟨"i2", "contentB", []⟩] :=
  C10_build_context_format
    [⟨"i1", "contentA", [("source", "srcA")]⟩, ⟨"i2", "contentB", []⟩] (by decide)

end RagSrv
